import Mathlib

/-!
# Option pricer TUI: state machine, grid engine and pricer

A shallow embedding of `main.go`.

Number model.  Go's `float64` is idealised as exact arithmetic.  The six
parameters of the session state only ever hold values that come from decimal
literals, from `strconv.ParseFloat` and from adding or subtracting `0.01`, and
every finite `float64` is a rational number, so the parameters are rationals
(`ℚ`).  Prices go through `exp`, `log`, `sqrt` and `erf`, so `Calc` and the
surfaces are real-valued (`ℝ`).  Rounding, NaN and the infinities are outside
the model; where Go would divide by zero the model follows Lean's total
operations, so statements about prices are meaningful on the domain
`S / K > 0`, `T > 0`, `v ≠ 0` only.

Go strings are modelled by Lean strings; the edit buffer only ever holds ASCII
text, for which bytes and characters coincide.
-/

namespace OptionPricer

/-! ## Library model: `strconv.ParseFloat` -/

/-- Reads a run of decimal digits: the accumulated value, the number of digits
read, and the unread rest. -/
def readDigits : List Char → Nat → Nat → Nat × Nat × List Char
  | [], acc, n => (acc, n, [])
  | c :: cs, acc, n =>
    if c.isDigit then readDigits cs (acc * 10 + (c.toNat - 48)) (n + 1)
    else (acc, n, c :: cs)

/-- Result of scanning a decimal floating-point literal: the sign, the
mantissa digits read as one natural number, the number of those digits that
stood after the decimal point, and the exponent. -/
structure scanned where
  neg : Bool
  mant : Nat
  frac : Nat
  exp : Int
  deriving DecidableEq

/-- Reads an optional sign: whether it was a minus, and the unread rest. -/
def readSign : List Char → Bool × List Char
  | '+' :: t => (false, t)
  | '-' :: t => (true, t)
  | s => (false, s)

/-- Reads the optional fraction: a decimal point followed by a run of digits
that continue the mantissa `ip`. -/
def readFraction (ip : Nat) : List Char → Nat × Nat × List Char
  | '.' :: t => readDigits t ip 0
  | rest => (ip, 0, rest)

/-- Reads the optional exponent and requires the text to end after it. -/
def readExponent (neg : Bool) (mant frac : Nat) : List Char → Option scanned
  | [] => some ⟨neg, mant, frac, 0⟩
  | c :: t =>
    if c = 'e' ∨ c = 'E' then
      let es := readSign t
      let ex := readDigits es.2 0 0
      if ex.2.1 = 0 then none
      else
        match ex.2.2 with
        | [] => some ⟨neg, mant, frac, if es.1 then -(ex.1 : Int) else (ex.1 : Int)⟩
        | _ :: _ => none
    else none

/-- Scanner of `strconv.ParseFloat` (`readFloat`) for decimal literals:
an optional sign, digits with at most one decimal point and at least one
digit, an optional exponent (`e` or `E`, optional sign, at least one digit);
the whole text must be consumed.  Hexadecimal literals, digit-separating
underscores and the spellings of infinity and NaN are outside the model
(they cannot be typed into the edit buffer, and `%g` of a finite number does
not produce them). -/
def readFloat (s : List Char) : Option scanned :=
  let sg := readSign s
  let ip := readDigits sg.2 0 0
  let fp := readFraction ip.1 ip.2.2
  if ip.2.1 + fp.2.1 = 0 then none
  else readExponent sg.1 fp.1 fp.2.1 fp.2.2

/-- Exact value of a scanned literal. -/
def scanned.value (d : scanned) : ℚ :=
  let e10 : Int := d.exp - (d.frac : Int)
  let a : ℚ := if 0 ≤ e10 then ((d.mant * 10 ^ e10.toNat : Nat) : ℚ)
               else ((d.mant : Nat) : ℚ) / ((10 ^ (-e10).toNat : Nat) : ℚ)
  if d.neg then -a else a

/-- Magnitude from which `float64` conversion overflows
(`math.MaxFloat64` plus half a unit in the last place). -/
def overflowBound : ℚ := 2 ^ 1024 - 2 ^ 970

/-- Model of `strconv.ParseFloat(s, 64)`: `some x` when the error is `nil`
(`x` is the exact value of the literal; rounding to the nearest `float64` is
idealised away), `none` on a syntax error or a range error. -/
def ParseFloat (s : String) : Option ℚ :=
  match readFloat s.data with
  | none => none
  | some d => if |d.value| < overflowBound then some d.value else none

/-! ## Library model: `fmt.Sprintf("%g", x)` -/

/-- Digits and decimal point of `strconv`: the value is `0.d₁d₂…dₙ × 10^dp`. -/
structure decimalSlice where
  d : List Char
  dp : Int

/-- Number of zeros between the decimal point and the first non-zero digit
of `n / d` when `0 < n < d`; `fuel` bounds the search. -/
def leadingZeros (n d : Nat) : Nat → Nat → Nat
  | 0, k => k
  | fuel + 1, k => if d ≤ n * 10 then k else leadingZeros (n * 10) d fuel (k + 1)

/-- Position of the decimal point of the positive rational `n / d`:
the integer `dp` with `10^(dp-1) ≤ n / d < 10^dp`. -/
def pointPos (n d : Nat) : Int :=
  if d ≤ n then ((Nat.toDigits 10 (n / d)).length : Int)
  else -((leadingZeros n d d 0 : Nat) : Int)

/-- Rounds `a / b` to the nearest natural number, ties to even. -/
def roundHalfEven (a b : Nat) : Nat :=
  let q := a / b
  let r := a % b
  if 2 * r < b then q
  else if b < 2 * r then q + 1
  else if q % 2 = 0 then q else q + 1

/-- Removes the trailing zeros of a digit string. -/
def stripZeros (ds : List Char) : List Char :=
  (ds.reverse.dropWhile (fun c => c = '0')).reverse

/-- Decimal digits of the positive rational `n / d`, as `%g` with the
shortest precision prints them.  In exact arithmetic the digits are those of
the number itself; they are cut (rounding half to even) at 17 significant
digits, the most `float64` formatting ever produces. -/
def shortestDigits (n d : Nat) : decimalSlice :=
  let dp := pointPos n d
  let sh : Int := 17 - dp
  let mant := if 0 ≤ sh then roundHalfEven (n * 10 ^ sh.toNat) d
              else roundHalfEven n (d * 10 ^ (-sh).toNat)
  if mant = 10 ^ 17 then ⟨['1'], dp + 1⟩
  else ⟨stripZeros (Nat.toDigits 10 mant), dp⟩

/-- The `%e` layout of `strconv` (`fmtE` with precision `nd - 1`). -/
def fmtE (digs : decimalSlice) : List Char :=
  let first := digs.d.take 1
  let more := if digs.d.length > 1 then '.' :: digs.d.drop 1 else []
  let exp := digs.dp - 1
  let sign := if exp < 0 then '-' else '+'
  let e := exp.natAbs
  let ed := if e < 10 then '0' :: Nat.toDigits 10 e else Nat.toDigits 10 e
  first ++ more ++ ['e', sign] ++ ed

/-- The `%f` layout of `strconv` (`fmtF` with precision `max (nd - dp) 0`). -/
def fmtF (digs : decimalSlice) : List Char :=
  let nd : Int := digs.d.length
  let ipart :=
    if 0 < digs.dp then
      digs.d.take digs.dp.toNat ++ List.replicate (digs.dp.toNat - digs.d.length) '0'
    else ['0']
  let prec := (nd - digs.dp).toNat
  let fpart :=
    if 0 < prec then
      '.' :: (List.range prec).map (fun i =>
        let j : Int := digs.dp + (i : Int)
        if 0 ≤ j ∧ j < nd then digs.d.getD j.toNat '0' else '0')
    else []
  ipart ++ fpart

/-- Model of `fmt.Sprintf("%g", x)` for a finite `x`: `strconv.FormatFloat`
with format `g` and the shortest precision, which switches to the exponent
layout when the decimal exponent is below `-4` or at least `6`. -/
def fmtG (x : ℚ) : String :=
  if x = 0 then "0"
  else
    let digs := shortestDigits x.num.natAbs x.den
    let exp := digs.dp - 1
    let body := if exp < -4 ∨ 6 ≤ exp then fmtE digs else fmtF digs
    String.mk (if x < 0 then '-' :: body else body)

/-! ## Pricer -/

/-- Term `n` of the Maclaurin series of the error function, without its
sign: `x^(2n+1) / (n! (2n+1))`. -/
noncomputable def erfTerm (x : ℝ) (n : ℕ) : ℝ :=
  x ^ (2 * n + 1) / ((n.factorial : ℝ) * (2 * n + 1))

/-- Model of `math.Erf`: the error function `2/√π · ∫₀ˣ exp (-t²) dt`, given
by its Maclaurin series `2/√π · Σₙ (-1)ⁿ x^(2n+1) / (n! (2n+1))`. -/
noncomputable def Erf (x : ℝ) : ℝ :=
  2 / Real.sqrt Real.pi * tsum fun n : ℕ => (-1) ^ n * erfTerm x n

/-- Black-Scholes helper: the standard normal distribution function. -/
noncomputable def NormCDF (x : ℝ) : ℝ :=
  0.5 * (1.0 + Erf (x / Real.sqrt 2))

/-- Black-Scholes price with continuous dividend yield; any `option_type`
other than `"call"` prices the put. -/
noncomputable def Calc (S K T r q v : ℝ) (option_type : String) : ℝ :=
  let d1 := (Real.log (S / K) + (r - q + 0.5 * v * v) * T) / (v * Real.sqrt T)
  let d2 := d1 - v * Real.sqrt T
  if option_type = "call" then
    S * Real.exp (-q * T) * NormCDF d1 - K * Real.exp (-r * T) * NormCDF d2
  else
    K * Real.exp (-r * T) * NormCDF (-d2) - S * Real.exp (-q * T) * NormCDF (-d1)

/-! ## Session state -/

/-- The session state.  `focus` 0..5 addresses a parameter, 6 is
"Compute heatmaps", 7 is "Quit".  A `nil` surface is the empty list. -/
structure model where
  S : ℚ
  K : ℚ
  T : ℚ
  r : ℚ
  q : ℚ
  v : ℚ
  editing : Bool
  input : String
  focus : Int
  callData : List (List ℝ)
  putData : List (List ℝ)

/-- The state at startup. -/
def initialModel : model :=
  { S := 100.0, K := 100.0, T := 1.0, r := 0.05, q := 0.02, v := 0.2,
    editing := false, input := "", focus := 0, callData := [], putData := [] }

/-- Messages of the event loop: a key press, identified by the text
`tea.KeyMsg.String()` returns for it, a window-size notification, or any
other message. -/
inductive Msg where
  | KeyMsg (s : String)
  | WindowSizeMsg
  | Other

/-- Commands the update can return; `nil` is `none`. -/
inductive Cmd where
  | Quit

/-- Text of parameter `idx` as placed into the edit buffer. -/
def fieldValueAsString (m : model) (idx : Int) : String :=
  if idx = 0 then fmtG m.S
  else if idx = 1 then fmtG m.K
  else if idx = 2 then fmtG m.T
  else if idx = 3 then fmtG m.r
  else if idx = 4 then fmtG m.q
  else if idx = 5 then fmtG m.v
  else ""

/-! ## Grid engine -/

/-- Lower end of the spot axis. -/
def Smin (m : model) : ℚ := m.S * 0.8

/-- Upper end of the spot axis. -/
def Smax (m : model) : ℚ := m.S * 1.2

/-- Lower end of the volatility axis, floored at `0.01`. -/
def Vmin (m : model) : ℚ :=
  let Vmin := m.v * 0.8
  if Vmin < 0.01 then 0.01 else Vmin

/-- Upper end of the volatility axis. -/
def Vmax (m : model) : ℚ := m.v * 1.4

/-- The spot value `Si` of row `i` of a grid of `n` rows. -/
def Si (m : model) (n i : Nat) : ℚ :=
  Smin m + (i : ℚ) * (Smax m - Smin m) / ((n - 1 : Nat) : ℚ)

/-- The volatility `vj` of column `j` of a grid of `mgrid` columns. -/
def vj (m : model) (mgrid j : Nat) : ℚ :=
  Vmin m + (j : ℚ) * (Vmax m - Vmin m) / ((mgrid - 1 : Nat) : ℚ)

/-- One surface of `computeHeatmaps`: cell `(i, j)` is the price at spot
`Si` and volatility `vj`. -/
noncomputable def surface (m : model) (option_type : String) : List (List ℝ) :=
  let n := 20
  let mgrid := 20
  (List.range n).map fun i =>
    (List.range mgrid).map fun j =>
      Calc (Si m n i) m.K m.T m.r m.q (vj m mgrid j) option_type

/-- Recomputes both surfaces from the current parameters. -/
noncomputable def computeHeatmaps (m : model) : model :=
  { m with callData := surface m "call", putData := surface m "put" }

/-! ## Interaction state machine -/

/-- Model of `strings.ContainsAny`. -/
def ContainsAny (s chars : String) : Bool :=
  s.data.any fun c => chars.data.contains c

/-- The Bubble Tea update function: the next state and the command. -/
noncomputable def Update (m : model) (msg : Msg) : model × Option Cmd :=
  match msg with
  | Msg.KeyMsg s =>
    if m.editing then
      if s = "enter" then
        let m1 :=
          match ParseFloat m.input with
          | some val =>
            if m.focus = 0 then { m with S := val }
            else if m.focus = 1 then { m with K := val }
            else if m.focus = 2 then { m with T := val }
            else if m.focus = 3 then { m with r := val }
            else if m.focus = 4 then { m with q := val }
            else if m.focus = 5 then { m with v := val }
            else m
          | none => m
        ({ m1 with editing := false, input := "" }, none)
      else if s = "backspace" then
        (if m.input.length > 0 then { m with input := String.mk m.input.data.dropLast } else m,
          none)
      else if s.utf8ByteSize = 1 ∧ ContainsAny s "0123456789.-" then
        ({ m with input := m.input ++ s }, none)
      else (m, none)
    else if s = "up" then
      (if m.focus > 0 then { m with focus := m.focus - 1 } else m, none)
    else if s = "down" then
      (if m.focus < 7 then { m with focus := m.focus + 1 } else m, none)
    else if s = "enter" then
      if m.focus < 6 then
        ({ m with editing := true, input := fieldValueAsString m m.focus }, none)
      else if m.focus = 6 then (computeHeatmaps m, none)
      else (m, some Cmd.Quit)
    else if s = "left" then (m, none)
    else if s = "a" then
      (if m.v > 0.01 then computeHeatmaps { m with v := m.v - 0.01 } else m, none)
    else if s = "right" then (m, none)
    else if s = "d" then (computeHeatmaps { m with v := m.v + 0.01 }, none)
    else if s = "q" then (m, some Cmd.Quit)
    else (m, none)
  | Msg.WindowSizeMsg => (m, none)
  | Msg.Other => (m, none)

/-- Feeds a sequence of messages, in order, to `Update`. -/
noncomputable def runMsgs (m : model) (msgs : List Msg) : model :=
  msgs.foldl (fun s msg => (Update s msg).1) m

/-- Feeds a sequence of key presses, in order, to `Update`. -/
noncomputable def run (m : model) (ks : List String) : model :=
  runMsgs m (ks.map Msg.KeyMsg)

/-- States reachable from the initial state by a sequence of events. -/
def Reachable (m : model) : Prop :=
  ∃ msgs : List Msg, m = runMsgs initialModel msgs

/-- Characters the edit buffer can hold: the keys the editor accepts (digits,
`.` and `-`) and the exponent characters `e` and `+` that `%g` writes. -/
def bufferChar (c : Char) : Prop :=
  c.isDigit = true ∨ c = '.' ∨ c = '-' ∨ c = 'e' ∨ c = '+'

/-! ## Heatmap renderer -/

/-- Model of Go's conversion `int(x)` of a `float64`: the fraction is
discarded (truncation toward zero). -/
noncomputable def truncInt (x : ℝ) : Int :=
  if 0 ≤ x then ⌊x⌋ else ⌈x⌉

/-- Model of the `%d` verb. -/
def fmtD (n : Int) : String :=
  match n with
  | Int.ofNat k => String.mk (Nat.toDigits 10 k)
  | Int.negSucc k => String.mk ('-' :: Nat.toDigits 10 (k + 1))

/-- The format `"\x1b[48;2;%d;%d;%dm  \x1b[0m"`: a direct-RGB background
colour, two blanks, and a reset. -/
def ansiBlock (r g b : Int) : String :=
  "\x1b[48;2;" ++ fmtD r ++ ";" ++ fmtD g ++ ";" ++ fmtD b ++ "m  \x1b[0m"

/-- The normalised position `t` of `val` between `minV` and `maxV`, as
`colorizeBlock` computes it. -/
noncomputable def blockT (val minV maxV : ℝ) : ℝ :=
  if maxV > minV then
    let t := (val - minV) / (maxV - minV)
    let t := if t < 0 then 0 else t
    if t > 1 then 1 else t
  else 0

/-- ANSI colour helper for heatmap cells: gradient from green (low) to red
(high). -/
noncomputable def colorizeBlock (val minV maxV : ℝ) : String :=
  let t := blockT val minV maxV
  let r := truncInt (255 * t)
  let g := truncInt (255 * (1 - t))
  let b := 0
  ansiBlock r g b

/-- The running minimum and maximum after visiting one cell. -/
noncomputable def minMaxStep (acc : ℝ × ℝ) (x : ℝ) : ℝ × ℝ :=
  (if x < acc.1 then x else acc.1, if x > acc.2 then x else acc.2)

/-- The minimum and maximum over all cells, starting from `x0`. -/
noncomputable def minMax (data : List (List ℝ)) (x0 : ℝ) : ℝ × ℝ :=
  data.foldl (fun acc row => row.foldl minMaxStep acc) (x0, x0)

/-- One line of text per matrix row, the cells coloured on the scale of the
whole matrix; nothing when the matrix or its first row is empty. -/
noncomputable def renderColoredHeatmap (data : List (List ℝ)) : List String :=
  match data with
  | [] => []
  | [] :: _ => []
  | (x0 :: _) :: _ =>
    let mm := minMax data x0
    data.map fun row => String.join (row.map fun x => colorizeBlock x mm.1 mm.2)

/-- The spec's normalisation: `clamp((value - min) / (max - min), 0, 1)`. -/
noncomputable def specT (val minV maxV : ℝ) : ℝ :=
  max 0 (min ((val - minV) / (maxV - minV)) 1)

/-- Text whose last character is a digit or the decimal point. -/
def lastOK (l : List Char) : Prop :=
  ∃ c, l.getLast? = some c ∧ (c.isDigit = true ∨ c = '.')

/-! ## The scanner accepts no text that ends in a minus sign -/

theorem lastOK_append (p : List Char) {r : List Char} (h : lastOK r) : lastOK (p ++ r) := by
  obtain ⟨c, hc, hd⟩ := h
  refine ⟨c, ?_, hd⟩
  have hr : r ≠ [] := by rintro rfl; simp at hc
  rw [List.getLast?_append_of_ne_nil _ hr, hc]

theorem lastOK_cons (a : Char) {r : List Char} (h : lastOK r) : lastOK (a :: r) :=
  lastOK_append [a] h

theorem lastOK_digits {ds : List Char} (hd : ∀ c ∈ ds, c.isDigit = true) (hne : ds ≠ []) :
    lastOK ds := by
  refine ⟨ds.getLast hne, List.getLast?_eq_getLast _ hne, Or.inl (hd _ (List.getLast_mem hne))⟩

theorem lastOK_of_readSign {s : List Char} (h : lastOK (readSign s).2) : lastOK s := by
  unfold readSign at h
  split at h
  · exact lastOK_cons _ h
  · exact lastOK_cons _ h
  · exact h

theorem readDigits_spec (l : List Char) (acc n : Nat) :
    ∃ ds, (∀ c ∈ ds, c.isDigit = true) ∧ l = ds ++ (readDigits l acc n).2.2 ∧
      (readDigits l acc n).2.1 = n + ds.length := by
  induction l generalizing acc n with
  | nil => exact ⟨[], by simp, by simp [readDigits], by simp [readDigits]⟩
  | cons c cs ih =>
    by_cases hc : c.isDigit = true
    · obtain ⟨ds, h1, h2, h3⟩ := ih (acc * 10 + (c.toNat - 48)) (n + 1)
      refine ⟨c :: ds, ?_, ?_, ?_⟩
      · intro x hx
        rcases List.mem_cons.1 hx with rfl | hx
        · exact hc
        · exact h1 x hx
      · simpa [readDigits, hc] using h2
      · simp [readDigits, hc, h3]; omega
    · exact ⟨[], by simp, by simp [readDigits, hc], by simp [readDigits, hc]⟩

theorem readExponent_lastOK {neg : Bool} {mant frac : Nat} {l : List Char} {d : scanned}
    (h : readExponent neg mant frac l = some d) : l = [] ∨ lastOK l := by
  cases l with
  | nil => exact Or.inl rfl
  | cons c t =>
    right
    apply lastOK_cons
    apply lastOK_of_readSign
    unfold readExponent at h
    simp only at h
    split at h
    · obtain ⟨ds, hd, hl, hn⟩ := readDigits_spec (readSign t).2 0 0
      split at h
      · exact absurd h (by simp)
      · rename_i hne
        split at h
        · rename_i hnil
          rw [hnil, List.append_nil] at hl
          rw [hl]
          refine lastOK_digits hd ?_
          rintro rfl
          simp at hn
          exact hne hn
        · exact absurd h (by simp)
    · exact absurd h (by simp)

theorem readFraction_lastOK (ip : Nat) (l : List Char)
    (h : (readFraction ip l).2.2 = [] ∨ lastOK (readFraction ip l).2.2) :
    ((readFraction ip l).2.1 = 0 ∧ (readFraction ip l).2.2 = l) ∨ lastOK l := by
  unfold readFraction at h ⊢
  split
  · rename_i t
    right
    simp only at h
    obtain ⟨ds, hd, hl, -⟩ := readDigits_spec t ip 0
    rcases h with h | h
    · rw [h, List.append_nil] at hl
      by_cases hne : ds = []
      · subst hne; subst hl
        exact ⟨'.', by simp, Or.inr rfl⟩
      · rw [hl]; exact lastOK_cons _ (lastOK_digits hd hne)
    · rw [hl]; exact lastOK_cons _ (lastOK_append _ h)
  · exact Or.inl ⟨rfl, rfl⟩

theorem readFloat_lastOK {s : List Char} {d : scanned} (h : readFloat s = some d) :
    lastOK s := by
  apply lastOK_of_readSign
  unfold readFloat at h
  simp only at h
  split at h
  · exact absurd h (by simp)
  · rename_i hne
    obtain ⟨ds, hd, hl, hn⟩ := readDigits_spec (readSign s).2 0 0
    rcases readFraction_lastOK _ _ (readExponent_lastOK h) with ⟨h0, hrest⟩ | hl2
    · rw [hrest] at h
      rw [h0] at hne
      have hds : ds ≠ [] := by
        rintro rfl
        simp at hn
        exact hne (by simp [hn])
      rcases readExponent_lastOK h with h | h
      · rw [h, List.append_nil] at hl
        rw [hl]; exact lastOK_digits hd hds
      · rw [hl]; exact lastOK_append _ h
    · rw [hl]; exact lastOK_append _ hl2

theorem readFloat_append_minus (l : List Char) : readFloat (l ++ ['-']) = none := by
  cases h : readFloat (l ++ ['-']) with
  | none => rfl
  | some d =>
    obtain ⟨c, hc, hd⟩ := readFloat_lastOK h
    simp at hc
    subst hc
    rcases hd with hd | hd
    · exact absurd hd (by decide)
    · exact absurd hd (by decide)

/-! ## Evaluating the library models -/

theorem ParseFloat_of_readFloat {s : String} {d : scanned} {x : ℚ}
    (h : readFloat s.data = some d) (hx : d.value = x) (hb : |x| < overflowBound) :
    ParseFloat s = some x := by
  subst hx
  simp [ParseFloat, h, hb]

theorem ParseFloat_of_readFloat_none {s : String} (h : readFloat s.data = none) :
    ParseFloat s = none := by
  simp [ParseFloat, h]

theorem ParseFloat_append_minus (s : String) : ParseFloat (s ++ "-") = none := by
  apply ParseFloat_of_readFloat_none
  have h : (s ++ "-").data = s.data ++ ['-'] := by simp
  rw [h]
  exact readFloat_append_minus _

/-- Values of the library models used in the worked examples. -/
theorem library_values :
    ParseFloat "1123" = some 1123 ∧ ParseFloat "1000000" = some 1000000 ∧
    fmtG 1.0 = "1" ∧ fmtG 100.0 = "100" ∧ fmtG 1000000 = "1e+06" := by
  refine ⟨?_, ?_, ?_, ?_, ?_⟩
  · apply ParseFloat_of_readFloat (d := ⟨false, 1123, 0, 0⟩)
    · rfl
    · norm_num [scanned.value]
    · norm_num [overflowBound]
  · apply ParseFloat_of_readFloat (d := ⟨false, 1000000, 0, 0⟩)
    · rfl
    · norm_num [scanned.value]
    · norm_num [overflowBound]
  · have h : (1.0 : ℚ) = 1 := by norm_num
    rw [h]; rfl
  · have h : (100.0 : ℚ) = 100 := by norm_num
    rw [h]; rfl
  · rfl

/-- The keys `0`, `1`, `2`, `3` and `-` pass the editor's character test. -/
theorem edit_keys :
    ("0".utf8ByteSize = 1 ∧ ContainsAny "0" "0123456789.-" = true) ∧
    ("1".utf8ByteSize = 1 ∧ ContainsAny "1" "0123456789.-" = true) ∧
    ("2".utf8ByteSize = 1 ∧ ContainsAny "2" "0123456789.-" = true) ∧
    ("3".utf8ByteSize = 1 ∧ ContainsAny "3" "0123456789.-" = true) ∧
    ("-".utf8ByteSize = 1 ∧ ContainsAny "-" "0123456789.-" = true) := by
  decide

/-! ## Editing a field -/

/-- C1, as stated, fails: after the keys down, down, enter, 1, 2, 3, enter from
the initial state it is not the case that `K = 123` with focus 2 and editing
off; the strike is still 100. -/
theorem C1_strike_not_123 :
    ¬ ((run initialModel ["down", "down", "enter", "1", "2", "3", "enter"]).K = 123 ∧
       (run initialModel ["down", "down", "enter", "1", "2", "3", "enter"]).focus = 2 ∧
       (run initialModel ["down", "down", "enter", "1", "2", "3", "enter"]).editing = false) := by
  have hrun : run initialModel ["down", "down", "enter", "1", "2", "3", "enter"]
      = { initialModel with T := 1123, focus := 2 } := by
    obtain ⟨hp, -, hf, -, -⟩ := library_values
    obtain ⟨-, k1, k2, k3, -⟩ := edit_keys
    delta run runMsgs Update
    simp [initialModel, fieldValueAsString, hp, hf, k1, k2, k3]
  rw [hrun]
  rintro ⟨h, -⟩
  norm_num [initialModel] at h

/-- C1, amended: after the keys down, down, enter, 1, 2, 3, enter from the
initial state the focused parameter is the maturity `T` (index 2), the typed
digits were appended to the buffer `"1"` that held its current value, so
`T = 1123`; `K` is still 100, the focus index is 2 and editing is off. -/
theorem C1_edit_sequence_sets_maturity :
    (run initialModel ["down", "down", "enter", "1", "2", "3", "enter"]).T = 1123 ∧
    (run initialModel ["down", "down", "enter", "1", "2", "3", "enter"]).K = 100 ∧
    (run initialModel ["down", "down", "enter", "1", "2", "3", "enter"]).focus = 2 ∧
    (run initialModel ["down", "down", "enter", "1", "2", "3", "enter"]).editing = false := by
  have hrun : run initialModel ["down", "down", "enter", "1", "2", "3", "enter"]
      = { initialModel with T := 1123, focus := 2 } := by
    obtain ⟨hp, -, hf, -, -⟩ := library_values
    obtain ⟨-, k1, k2, k3, -⟩ := edit_keys
    delta run runMsgs Update
    simp [initialModel, fieldValueAsString, hp, hf, k1, k2, k3]
  rw [hrun]
  norm_num [initialModel]

/-! ## Steps of the state machine -/

/-- While editing, no key returns a command, moves the focus or touches a
surface. -/
theorem Update_editing (m : model) (s : String) (he : m.editing = true) :
    (Update m (Msg.KeyMsg s)).2 = none ∧
    (Update m (Msg.KeyMsg s)).1.focus = m.focus ∧
    (Update m (Msg.KeyMsg s)).1.callData = m.callData ∧
    (Update m (Msg.KeyMsg s)).1.putData = m.putData := by
  cases hp : ParseFloat m.input with
  | none =>
    delta Update
    simp only [he, hp, if_true]
    split_ifs <;> simp
  | some val =>
    delta Update
    simp only [he, hp, if_true]
    split_ifs <;> simp

/-- The focus index after a key in Navigating. -/
theorem Update_nav_focus (m : model) (s : String) (he : m.editing = false) :
    (Update m (Msg.KeyMsg s)).1.focus
      = if s = "up" then (if m.focus > 0 then m.focus - 1 else m.focus)
        else if s = "down" then (if m.focus < 7 then m.focus + 1 else m.focus)
        else m.focus := by
  by_cases hu : s = "up"
  · subst hu
    delta Update
    simp only [he, if_true, Bool.false_eq_true, if_false]
    split_ifs <;> rfl
  · by_cases hd : s = "down"
    · subst hd
      delta Update
      simp only [he, hu, if_true, Bool.false_eq_true, if_false]
      split_ifs <;> rfl
    · delta Update
      simp only [he, hu, hd, Bool.false_eq_true, if_false]
      split_ifs <;> rfl

/-- Induction over the states reachable from the initial state. -/
theorem Reachable_induction {P : model → Prop} (h0 : P initialModel)
    (hstep : ∀ (m : model) (msg : Msg), P m → P (Update m msg).1) :
    ∀ m : model, Reachable m → P m := by
  have key : ∀ (msgs : List Msg) (s : model), P s → P (runMsgs s msgs) := by
    intro msgs
    induction msgs with
    | nil => intro s hs; exact hs
    | cons msg rest ih => intro s hs; exact ih _ (hstep s msg hs)
  rintro m ⟨msgs, rfl⟩
  exact key msgs initialModel h0

/-- C2: in Editing with a buffer that parses as `x`, `enter` assigns `x` to
the parameter the focus index names (0..5 for S, K, T, r, q, v), changes no
other parameter, nor the focus, nor either surface, leaves Editing and empties
the buffer. -/
theorem C2_commit_edit (m : model) (x : ℚ) (he : m.editing = true)
    (hp : ParseFloat m.input = some x) :
    (m.focus = 0 →
      Update m (Msg.KeyMsg "enter") = ({ m with S := x, editing := false, input := "" }, none)) ∧
    (m.focus = 1 →
      Update m (Msg.KeyMsg "enter") = ({ m with K := x, editing := false, input := "" }, none)) ∧
    (m.focus = 2 →
      Update m (Msg.KeyMsg "enter") = ({ m with T := x, editing := false, input := "" }, none)) ∧
    (m.focus = 3 →
      Update m (Msg.KeyMsg "enter") = ({ m with r := x, editing := false, input := "" }, none)) ∧
    (m.focus = 4 →
      Update m (Msg.KeyMsg "enter") = ({ m with q := x, editing := false, input := "" }, none)) ∧
    (m.focus = 5 →
      Update m (Msg.KeyMsg "enter") = ({ m with v := x, editing := false, input := "" }, none)) := by
  refine ⟨?_, ?_, ?_, ?_, ?_, ?_⟩ <;> intro hf <;> delta Update <;> simp [he, hp, hf]

/-- Witness of C2: committing the buffer `"1123"` on the strike. -/
theorem C2_commit_edit_witness :
    Update { initialModel with editing := true, input := "1123", focus := 1 }
        (Msg.KeyMsg "enter")
      = ({ initialModel with K := 1123, focus := 1 }, none) :=
  (C2_commit_edit { initialModel with editing := true, input := "1123", focus := 1 } 1123
    rfl library_values.1).2.1 rfl

/-- C3: in Editing, when the buffer does not parse (`ParseFloat` reports an
error; in particular the empty buffer, `"-"`, `"--"`, `"1.2.3"`, and the buffer
left by entering edit mode on any field and typing `-`), `enter` leaves the six
parameters, the focus index and both surfaces as they were, leaves Editing,
empties the buffer and returns no command. -/
theorem C3_discard_unparsable (m : model) (he : m.editing = true)
    (hp : ParseFloat m.input = none ∨ m.input = "" ∨ m.input = "-" ∨ m.input = "--" ∨
      m.input = "1.2.3" ∨
      ∃ m0 : model, m0.editing = false ∧ m0.focus < 6 ∧
        m = (Update (Update m0 (Msg.KeyMsg "enter")).1 (Msg.KeyMsg "-")).1) :
    Update m (Msg.KeyMsg "enter") = ({ m with editing := false, input := "" }, none) := by
  have hnone : ParseFloat m.input = none := by
    rcases hp with h | h | h | h | h | ⟨m0, h0, hf, h⟩
    · exact h
    · rw [h]; rfl
    · rw [h]; rfl
    · rw [h]; rfl
    · rw [h]; rfl
    · have hin : m.input = fieldValueAsString m0 m0.focus ++ "-" := by
        obtain ⟨-, -, -, -, km⟩ := edit_keys
        rw [h]
        delta Update
        simp [h0, hf, km]
      rw [hin]
      exact ParseFloat_append_minus _
  delta Update
  simp [he, hnone]

/-- Witness of C3: the strike is selected, edit mode is entered, `-` is typed
and the edit is confirmed; the state is the one before the edit. -/
theorem C3_discard_unparsable_witness :
    Update (Update (Update { initialModel with focus := 1 } (Msg.KeyMsg "enter")).1
        (Msg.KeyMsg "-")).1 (Msg.KeyMsg "enter")
      = ({ initialModel with focus := 1 }, none) := by
  have hm : (Update (Update { initialModel with focus := 1 } (Msg.KeyMsg "enter")).1
      (Msg.KeyMsg "-")).1
      = { initialModel with focus := 1, editing := true,
                            input := fieldValueAsString initialModel 1 ++ "-" } := by
    obtain ⟨-, -, -, -, km⟩ := edit_keys
    delta Update
    simp [initialModel, km]
    rfl
  rw [C3_discard_unparsable _ (by rw [hm])
    (Or.inr (Or.inr (Or.inr (Or.inr (Or.inr
      ⟨{ initialModel with focus := 1 }, rfl, by decide, rfl⟩))))), hm]
  rfl

/-! ## Grid engine and quick adjustment of the volatility -/

/-- C4 fails on the code: in the Navigating initial state the key `left`
changes nothing (volatility stays 0.2, no surface is computed), while `a`
lowers the volatility to 0.19 and computes both surfaces; likewise `right`
changes nothing while `d` raises the volatility to 0.21. -/
theorem C4_left_right_do_nothing :
    Update initialModel (Msg.KeyMsg "left") = (initialModel, none) ∧
    Update initialModel (Msg.KeyMsg "right") = (initialModel, none) ∧
    (Update initialModel (Msg.KeyMsg "a")).1.v = 0.19 ∧
    (Update initialModel (Msg.KeyMsg "a")).1.callData.length = 20 ∧
    (Update initialModel (Msg.KeyMsg "d")).1.v = 0.21 ∧
    (Update initialModel (Msg.KeyMsg "d")).1.callData.length = 20 ∧
    Update initialModel (Msg.KeyMsg "left") ≠ Update initialModel (Msg.KeyMsg "a") ∧
    Update initialModel (Msg.KeyMsg "right") ≠ Update initialModel (Msg.KeyMsg "d") := by
  have hl : Update initialModel (Msg.KeyMsg "left") = (initialModel, none) := by
    delta Update
    simp [initialModel]
  have hr : Update initialModel (Msg.KeyMsg "right") = (initialModel, none) := by
    delta Update
    simp [initialModel]
  have hv : initialModel.v > 0.01 := by norm_num [initialModel]
  have ha : Update initialModel (Msg.KeyMsg "a")
      = (computeHeatmaps { initialModel with v := initialModel.v - 0.01 }, none) := by
    delta Update
    simp [hv]
    simp [initialModel]
  have hd : Update initialModel (Msg.KeyMsg "d")
      = (computeHeatmaps { initialModel with v := initialModel.v + 0.01 }, none) := by
    delta Update
    simp [initialModel]
  have hav : (Update initialModel (Msg.KeyMsg "a")).1.v = 0.19 := by
    rw [ha]
    show initialModel.v - 0.01 = 0.19
    norm_num [initialModel]
  have hdv : (Update initialModel (Msg.KeyMsg "d")).1.v = 0.21 := by
    rw [hd]
    show initialModel.v + 0.01 = 0.21
    norm_num [initialModel]
  refine ⟨hl, hr, hav, ?_, hdv, ?_, ?_, ?_⟩
  · rw [ha]; rfl
  · rw [hd]; rfl
  · intro h
    rw [← h, hl] at hav
    norm_num [initialModel] at hav
  · intro h
    rw [← h, hr] at hdv
    norm_num [initialModel] at hdv

/-- C10: in Navigating with the focus on the compute row (6), `enter` twice in
succession gives the same call and put matrices as `enter` once, and the
matrices depend on the six parameters only: for a second state with the same
`S, K, T, r, q, v`, whatever its stored surfaces, focus, mode and buffer,
`computeHeatmaps` yields the same matrices, and so does the compute action
once that state stands on the compute row. -/
theorem C10_compute_idempotent (m m' : model)
    (he : m.editing = false) (hf : m.focus = 6)
    (hS : m.S = m'.S) (hK : m.K = m'.K) (hT : m.T = m'.T)
    (hr : m.r = m'.r) (hq : m.q = m'.q) (hv : m.v = m'.v) :
    (Update (Update m (Msg.KeyMsg "enter")).1 (Msg.KeyMsg "enter")).1.callData
      = (Update m (Msg.KeyMsg "enter")).1.callData ∧
    (Update (Update m (Msg.KeyMsg "enter")).1 (Msg.KeyMsg "enter")).1.putData
      = (Update m (Msg.KeyMsg "enter")).1.putData ∧
    (computeHeatmaps m').callData = (Update m (Msg.KeyMsg "enter")).1.callData ∧
    (computeHeatmaps m').putData = (Update m (Msg.KeyMsg "enter")).1.putData ∧
    (Update { m' with editing := false, focus := 6 } (Msg.KeyMsg "enter")).1.callData
      = (Update m (Msg.KeyMsg "enter")).1.callData ∧
    (Update { m' with editing := false, focus := 6 } (Msg.KeyMsg "enter")).1.putData
      = (Update m (Msg.KeyMsg "enter")).1.putData := by
  have hU : ∀ p : model, p.editing = false → p.focus = 6 →
      Update p (Msg.KeyMsg "enter") = (computeHeatmaps p, none) := by
    intro p hpe hpf
    delta Update
    simp [hpe, hpf]
  have hsurf : ∀ ot : String, surface m' ot = surface m ot := by
    intro ot
    delta surface Si vj Smin Smax Vmin Vmax
    simp only [hS, hK, hT, hr, hq, hv]
  have h1 := hU m he hf
  have h2 : Update (computeHeatmaps m) (Msg.KeyMsg "enter") = (computeHeatmaps m, none) :=
    hU (computeHeatmaps m) he hf
  have h3 : Update { m' with editing := false, focus := 6 } (Msg.KeyMsg "enter")
      = (computeHeatmaps { m' with editing := false, focus := 6 }, none) := hU _ rfl rfl
  rw [h1, h2, h3]
  exact ⟨rfl, rfl, hsurf "call", hsurf "put", hsurf "call", hsurf "put"⟩

/-- Witness of C10: the initial parameters with the focus on the compute row,
against a state with the same parameters that is editing the rate, with other
surfaces and another buffer. -/
theorem C10_compute_idempotent_witness :
    (Update (Update { initialModel with focus := 6 } (Msg.KeyMsg "enter")).1
        (Msg.KeyMsg "enter")).1.callData
      = (Update { initialModel with focus := 6 } (Msg.KeyMsg "enter")).1.callData ∧
    (Update (Update { initialModel with focus := 6 } (Msg.KeyMsg "enter")).1
        (Msg.KeyMsg "enter")).1.putData
      = (Update { initialModel with focus := 6 } (Msg.KeyMsg "enter")).1.putData ∧
    (computeHeatmaps
        { initialModel with
          focus := 3, editing := true, input := "7", callData := [[1]], putData := [[2, 3]]
        }).callData
      = (Update { initialModel with focus := 6 } (Msg.KeyMsg "enter")).1.callData ∧
    (computeHeatmaps
        { initialModel with
          focus := 3, editing := true, input := "7", callData := [[1]], putData := [[2, 3]]
        }).putData
      = (Update { initialModel with focus := 6 } (Msg.KeyMsg "enter")).1.putData :=
  have h := C10_compute_idempotent { initialModel with focus := 6 }
    { initialModel with
      focus := 3, editing := true, input := "7", callData := [[1]], putData := [[2, 3]] }
    rfl rfl rfl rfl rfl rfl rfl rfl
  ⟨h.1, h.2.1, h.2.2.1, h.2.2.2.1⟩

/-! ## Invariants of the state machine -/

/-- C14: the focus index is 0 in the initial state, and every `Update`
transition (any key in Navigating or Editing, a window-size message, any other
message) takes a state with focus in [0,7] to a state with focus in [0,7]; in
Navigating `up` sets it to `max(0, focus-1)`, `down` to `min(7, focus+1)`, and
every other event leaves it as it was. -/
theorem C14_focus_in_range (m : model) (msg : Msg) (h0 : 0 ≤ m.focus) (h7 : m.focus ≤ 7) :
    initialModel.focus = 0 ∧
    0 ≤ (Update m msg).1.focus ∧ (Update m msg).1.focus ≤ 7 ∧
    (m.editing = false → (Update m (Msg.KeyMsg "up")).1.focus = max 0 (m.focus - 1)) ∧
    (m.editing = false → (Update m (Msg.KeyMsg "down")).1.focus = min 7 (m.focus + 1)) ∧
    ((m.editing = true ∨ ∀ s, msg = Msg.KeyMsg s → s ≠ "up" ∧ s ≠ "down") →
      (Update m msg).1.focus = m.focus) := by
  have hrange : 0 ≤ (Update m msg).1.focus ∧ (Update m msg).1.focus ≤ 7 := by
    cases msg with
    | WindowSizeMsg => exact ⟨h0, h7⟩
    | Other => exact ⟨h0, h7⟩
    | KeyMsg s =>
      cases he : m.editing with
      | true => rw [(Update_editing m s he).2.1]; exact ⟨h0, h7⟩
      | false =>
        rw [Update_nav_focus m s he]
        split_ifs <;> omega
  refine ⟨rfl, hrange.1, hrange.2, ?_, ?_, ?_⟩
  · intro he
    rw [Update_nav_focus m "up" he, if_pos rfl]
    split_ifs with h
    · rw [max_eq_right (by omega)]
    · rw [max_eq_left (by omega)]; omega
  · intro he
    have hne : ¬ ("down" = "up") := by decide
    rw [Update_nav_focus m "down" he, if_neg hne, if_pos rfl]
    split_ifs with h
    · rw [min_eq_right (by omega)]
    · rw [min_eq_left (by omega)]; omega
  · intro h
    cases msg with
    | WindowSizeMsg => rfl
    | Other => rfl
    | KeyMsg s =>
      cases he : m.editing with
      | true => exact (Update_editing m s he).2.1
      | false =>
        rcases h with h | h
        · rw [he] at h; exact absurd h (by decide)
        · obtain ⟨hu, hd⟩ := h s rfl
          rw [Update_nav_focus m s he, if_neg hu, if_neg hd]

/-- Witness of C14: `down` on the last row. -/
theorem C14_focus_in_range_witness :
    (Update { initialModel with focus := 7 } (Msg.KeyMsg "down")).1.focus ≤ 7 ∧
    (Update { initialModel with focus := 7 } (Msg.KeyMsg "down")).1.focus = min 7 (7 + 1) :=
  have h := C14_focus_in_range { initialModel with focus := 7 } (Msg.KeyMsg "down")
    (by decide) (by decide)
  ⟨h.2.2.1, h.2.2.2.2.1 rfl⟩

/-- C15: in every state reachable from the initial state the call and the put
surface are both absent, or both present with 20 rows of 20 columns and both
the grids `computeHeatmaps` produces for one and the same parameter set. -/
theorem C15_surfaces_in_step (m : model) (h : Reachable m) :
    (m.callData = [] ∧ m.putData = []) ∨
    (m.callData.length = 20 ∧ m.callData.map List.length = List.replicate 20 20 ∧
     m.putData.length = 20 ∧ m.putData.map List.length = List.replicate 20 20 ∧
     ∃ p : model, m.callData = (computeHeatmaps p).callData ∧
       m.putData = (computeHeatmaps p).putData) := by
  have hinv : (m.callData = [] ∧ m.putData = []) ∨
      ∃ p : model, m.callData = (computeHeatmaps p).callData ∧
        m.putData = (computeHeatmaps p).putData := by
    refine Reachable_induction
      (P := fun s => (s.callData = [] ∧ s.putData = []) ∨
        ∃ p : model, s.callData = (computeHeatmaps p).callData ∧
          s.putData = (computeHeatmaps p).putData) (Or.inl ⟨rfl, rfl⟩) ?_ m h
    intro s msg ih
    have hstep : ((Update s msg).1.callData = s.callData ∧
          (Update s msg).1.putData = s.putData) ∨
        ∃ p : model, (Update s msg).1 = computeHeatmaps p := by
      cases msg with
      | WindowSizeMsg => exact Or.inl ⟨rfl, rfl⟩
      | Other => exact Or.inl ⟨rfl, rfl⟩
      | KeyMsg k =>
        cases he : s.editing with
        | true => exact Or.inl ⟨(Update_editing s k he).2.2.1, (Update_editing s k he).2.2.2⟩
        | false =>
          delta Update
          simp only [he, Bool.false_eq_true, if_false]
          split_ifs
          all_goals first
            | exact Or.inl ⟨rfl, rfl⟩
            | exact Or.inr ⟨_, rfl⟩
    rcases hstep with ⟨hc, hp⟩ | ⟨p, hp⟩
    · rw [hc, hp]; exact ih
    · exact Or.inr ⟨p, by rw [hp], by rw [hp]⟩
  rcases hinv with h0 | ⟨p, hc, hp⟩
  · exact Or.inl h0
  · right
    rw [hc, hp]
    exact ⟨rfl, rfl, rfl, rfl, p, rfl, rfl⟩

/-- Witness of C15: the state after one `d` from the initial state. -/
theorem C15_surfaces_in_step_witness :
    ((Update initialModel (Msg.KeyMsg "d")).1.callData = [] ∧
      (Update initialModel (Msg.KeyMsg "d")).1.putData = []) ∨
    ((Update initialModel (Msg.KeyMsg "d")).1.callData.length = 20 ∧
     (Update initialModel (Msg.KeyMsg "d")).1.callData.map List.length = List.replicate 20 20 ∧
     (Update initialModel (Msg.KeyMsg "d")).1.putData.length = 20 ∧
     (Update initialModel (Msg.KeyMsg "d")).1.putData.map List.length = List.replicate 20 20 ∧
     ∃ p : model, (Update initialModel (Msg.KeyMsg "d")).1.callData = (computeHeatmaps p).callData ∧
       (Update initialModel (Msg.KeyMsg "d")).1.putData = (computeHeatmaps p).putData) :=
  C15_surfaces_in_step _ ⟨[Msg.KeyMsg "d"], rfl⟩

/-- C16, as stated, fails: in the Navigating state with the initial parameters
but `v = 0.01` and no surfaces, `a` leaves the state as it is, so the call
surface is still absent and is not the grid `computeHeatmaps` produces. -/
theorem C16_no_recompute_at_floor :
    ¬ (∀ m : model, m.editing = false →
        (Update m (Msg.KeyMsg "a")).1.callData
          = (computeHeatmaps (Update m (Msg.KeyMsg "a")).1).callData ∧
        (Update m (Msg.KeyMsg "a")).1.putData
          = (computeHeatmaps (Update m (Msg.KeyMsg "a")).1).putData) := by
  intro h
  have h1 := (h { initialModel with v := 0.01 } rfl).1
  have hU : Update { initialModel with v := 0.01 } (Msg.KeyMsg "a")
      = ({ initialModel with v := 0.01 }, none) := by
    delta Update
    simp [initialModel]
  rw [hU] at h1
  have h2 : ([] : List (List ℝ)).length = 20 := congrArg List.length h1
  exact absurd h2 (by decide)

/-- C16, amended: after an `a` key in a Navigating state with `v > 0.01` the
volatility is `v - 0.01` and both surfaces are present and are the grids
`computeHeatmaps` produces from the parameters of the resulting state; with
`v <= 0.01` the whole state, volatility and surfaces included, is left as it
was and nothing is recomputed. -/
theorem C16_decrement_recomputes_above_floor (m : model) (he : m.editing = false) :
    (m.v > 0.01 →
      (Update m (Msg.KeyMsg "a")).1.v = m.v - 0.01 ∧
      (Update m (Msg.KeyMsg "a")).1.callData.length = 20 ∧
      (Update m (Msg.KeyMsg "a")).1.putData.length = 20 ∧
      (Update m (Msg.KeyMsg "a")).1.callData
        = (computeHeatmaps (Update m (Msg.KeyMsg "a")).1).callData ∧
      (Update m (Msg.KeyMsg "a")).1.putData
        = (computeHeatmaps (Update m (Msg.KeyMsg "a")).1).putData) ∧
    (m.v ≤ 0.01 → Update m (Msg.KeyMsg "a") = (m, none)) := by
  constructor
  · intro hv
    have hU : Update m (Msg.KeyMsg "a") = (computeHeatmaps { m with v := m.v - 0.01 }, none) := by
      delta Update
      simp [he, hv]
    rw [hU]
    exact ⟨rfl, rfl, rfl, rfl, rfl⟩
  · intro hv
    have h : ¬ (m.v > 0.01) := not_lt.mpr hv
    delta Update
    simp [he, h]

/-- Witness of C16: `a` at `v = 0.2` and at `v = 0.01`. -/
theorem C16_decrement_recomputes_above_floor_witness :
    ((Update initialModel (Msg.KeyMsg "a")).1.v = initialModel.v - 0.01 ∧
      (Update initialModel (Msg.KeyMsg "a")).1.callData.length = 20 ∧
      (Update initialModel (Msg.KeyMsg "a")).1.putData.length = 20) ∧
    Update { initialModel with v := 0.01 } (Msg.KeyMsg "a")
      = ({ initialModel with v := 0.01 }, none) :=
  have h1 := (C16_decrement_recomputes_above_floor initialModel rfl).1
    (by norm_num [initialModel])
  ⟨⟨h1.1, h1.2.1, h1.2.2.1⟩,
    (C16_decrement_recomputes_above_floor { initialModel with v := 0.01 } rfl).2 (le_refl _)⟩

/-- C17: entering and leaving Editing never recomputes the surfaces: `enter`
in Navigating with focus below 6, and any key at all while editing is on,
returns a state with the call and put surfaces it had before; in Editing no
key signals quit. -/
theorem C17_editing_keeps_surfaces (m : model) (s : String)
    (h : m.editing = true ∨ (m.editing = false ∧ s = "enter" ∧ m.focus < 6)) :
    (Update m (Msg.KeyMsg s)).1.callData = m.callData ∧
    (Update m (Msg.KeyMsg s)).1.putData = m.putData ∧
    (m.editing = true → (Update m (Msg.KeyMsg s)).2 = none) := by
  rcases h with he | ⟨he, hs, hf⟩
  · exact ⟨(Update_editing m s he).2.2.1, (Update_editing m s he).2.2.2,
      fun _ => (Update_editing m s he).1⟩
  · subst hs
    have hU : Update m (Msg.KeyMsg "enter")
        = ({ m with editing := true, input := fieldValueAsString m m.focus }, none) := by
      delta Update
      simp [he, hf]
    rw [hU]
    exact ⟨rfl, rfl, fun _ => rfl⟩

/-- Witness of C17: `q` while editing the spot, with surfaces stored. -/
theorem C17_editing_keeps_surfaces_witness :
    (Update { initialModel with editing := true, callData := [[1]], putData := [[2]] }
        (Msg.KeyMsg "q")).1.callData = [[1]] ∧
    (Update { initialModel with editing := true, callData := [[1]], putData := [[2]] }
        (Msg.KeyMsg "q")).1.putData = [[2]] ∧
    (Update { initialModel with editing := true, callData := [[1]], putData := [[2]] }
        (Msg.KeyMsg "q")).2 = none :=
  have h := C17_editing_keeps_surfaces
    { initialModel with editing := true, callData := [[1]], putData := [[2]] } "q" (Or.inl rfl)
  ⟨h.1, h.2.1, h.2.2 rfl⟩

/-- C20: in every state reachable from the initial state, editing on implies
a focus index from 0 to 5, so only one of the six parameters is ever being
edited, never the compute or quit row; and no event changes the focus index
while editing is on. -/
theorem C20_editing_focus (m : model) (msg : Msg) (h : Reachable m) (he : m.editing = true) :
    0 ≤ m.focus ∧ m.focus ≤ 5 ∧ (Update m msg).1.focus = m.focus := by
  have hinv : 0 ≤ m.focus ∧ (m.editing = true → m.focus ≤ 5) := by
    refine Reachable_induction
      (P := fun s => 0 ≤ s.focus ∧ (s.editing = true → s.focus ≤ 5))
      ⟨by decide, fun h => absurd h (by decide)⟩ ?_ m h
    rintro s ev ⟨h0, h5⟩
    cases ev with
    | WindowSizeMsg => exact ⟨h0, h5⟩
    | Other => exact ⟨h0, h5⟩
    | KeyMsg k =>
      cases hs : s.editing with
      | true =>
        rw [(Update_editing s k hs).2.1]
        exact ⟨h0, fun _ => h5 hs⟩
      | false =>
        constructor
        · rw [Update_nav_focus s k hs]
          split_ifs <;> omega
        · delta Update
          simp only [hs, Bool.false_eq_true, if_false]
          split_ifs <;> first
            | (intro hed; exact False.elim hed)
            | (intro hed; exact absurd (show false = true from hed) (by decide))
            | (intro hed; exact absurd (hs.symm.trans hed) (by decide))
            | (intro _; show s.focus ≤ 5; omega)
  refine ⟨hinv.1, hinv.2 he, ?_⟩
  cases msg with
  | WindowSizeMsg => rfl
  | Other => rfl
  | KeyMsg s => exact (Update_editing m s he).2.1

/-- Witness of C20: `down` after entering edit mode on the spot. -/
theorem C20_editing_focus_witness :
    0 ≤ (Update initialModel (Msg.KeyMsg "enter")).1.focus ∧
    (Update initialModel (Msg.KeyMsg "enter")).1.focus ≤ 5 ∧
    (Update (Update initialModel (Msg.KeyMsg "enter")).1 (Msg.KeyMsg "down")).1.focus
      = (Update initialModel (Msg.KeyMsg "enter")).1.focus :=
  C20_editing_focus _ (Msg.KeyMsg "down") ⟨[Msg.KeyMsg "enter"], rfl⟩
    (by delta Update; simp [initialModel])

/-! ## Characters of the edit buffer -/

theorem digitChar_isDigit (k : Nat) (h : k < 10) : (Nat.digitChar k).isDigit = true := by
  interval_cases k <;> decide

theorem toDigitsCore_isDigit (f : Nat) :
    ∀ (n : Nat) (ds : List Char), (∀ c ∈ ds, c.isDigit = true) →
      ∀ c ∈ Nat.toDigitsCore 10 f n ds, c.isDigit = true := by
  induction f with
  | zero =>
    intro n ds hds c hc
    exact hds c hc
  | succ f ih =>
    intro n ds hds c hc
    have hd : (Nat.digitChar (n % 10)).isDigit = true :=
      digitChar_isDigit _ (Nat.mod_lt _ (by decide))
    have hds2 : ∀ c ∈ Nat.digitChar (n % 10) :: ds, c.isDigit = true := by
      intro x hx
      rcases List.mem_cons.1 hx with rfl | hx
      · exact hd
      · exact hds x hx
    simp only [Nat.toDigitsCore] at hc
    split_ifs at hc
    · exact hds2 c hc
    · exact ih _ _ hds2 c hc

theorem toDigits_isDigit (n : Nat) : ∀ c ∈ Nat.toDigits 10 n, c.isDigit = true :=
  toDigitsCore_isDigit _ _ _ (by simp)

theorem mem_stripZeros {ds : List Char} {c : Char} (h : c ∈ stripZeros ds) : c ∈ ds := by
  unfold stripZeros at h
  rw [List.mem_reverse] at h
  exact List.mem_reverse.1 ((List.dropWhile_sublist _).subset h)

theorem shortestDigits_isDigit (n d : Nat) :
    ∀ c ∈ (shortestDigits n d).d, c.isDigit = true := by
  intro c hc
  simp only [shortestDigits] at hc
  split_ifs at hc
  · simp only [List.mem_singleton] at hc
    subst hc
    decide
  · exact toDigits_isDigit _ c (mem_stripZeros hc)
  · simp only [List.mem_singleton] at hc
    subst hc
    decide
  · exact toDigits_isDigit _ c (mem_stripZeros hc)

theorem bufferChar_of_isDigit {c : Char} (h : c.isDigit = true) : bufferChar c := Or.inl h

theorem fmtE_bufferChar (digs : decimalSlice) (hd : ∀ c ∈ digs.d, c.isDigit = true) :
    ∀ c ∈ fmtE digs, bufferChar c := by
  intro c hc
  simp only [fmtE, List.mem_append, List.mem_cons, List.mem_singleton] at hc
  rcases hc with ((hc | hc) | hc) | hc
  · exact Or.inl (hd c (List.mem_of_mem_take hc))
  · split_ifs at hc
    · rcases List.mem_cons.1 hc with rfl | hc
      · exact Or.inr (Or.inl rfl)
      · exact Or.inl (hd c (List.mem_of_mem_drop hc))
    · simp at hc
  · rcases hc with rfl | hc | hc
    · exact Or.inr (Or.inr (Or.inr (Or.inl rfl)))
    · split_ifs at hc
      · exact Or.inr (Or.inr (Or.inl hc))
      · exact Or.inr (Or.inr (Or.inr (Or.inr hc)))
    · simp at hc
  · split_ifs at hc
    · rcases List.mem_cons.1 hc with rfl | hc
      · exact Or.inl (by decide)
      · exact Or.inl (toDigits_isDigit _ c hc)
    · exact Or.inl (toDigits_isDigit _ c hc)

theorem fmtF_bufferChar (digs : decimalSlice) (hd : ∀ c ∈ digs.d, c.isDigit = true) :
    ∀ c ∈ fmtF digs, bufferChar c := by
  intro c hc
  simp only [fmtF, List.mem_append] at hc
  rcases hc with hc | hc
  · split_ifs at hc
    · rcases List.mem_append.1 hc with hc | hc
      · exact Or.inl (hd c (List.mem_of_mem_take hc))
      · rw [List.eq_of_mem_replicate hc]
        exact Or.inl (by decide)
    · simp only [List.mem_singleton] at hc
      subst hc
      exact Or.inl (by decide)
  · split_ifs at hc
    · rcases List.mem_cons.1 hc with rfl | hc
      · exact Or.inr (Or.inl rfl)
      · obtain ⟨i, -, rfl⟩ := List.mem_map.1 hc
        show bufferChar (if 0 ≤ digs.dp + (i : Int) ∧ digs.dp + (i : Int) < (digs.d.length : Int)
          then digs.d.getD (digs.dp + (i : Int)).toNat '0' else '0')
        split_ifs
        · rw [List.getD_eq_getElem?_getD]
          cases hg : digs.d[(digs.dp + (i : Int)).toNat]? with
          | none => exact Or.inl (by decide)
          | some x => exact Or.inl (hd x (List.getElem?_mem hg))
        · exact Or.inl (by decide)
    · simp at hc

theorem fmtG_bufferChar (x : ℚ) : ∀ c ∈ (fmtG x).data, bufferChar c := by
  intro c hc
  have hd := shortestDigits_isDigit x.num.natAbs x.den
  by_cases h0 : x = 0
  · simp only [fmtG, h0, if_true] at hc
    simp at hc
    subst hc
    exact Or.inl (by decide)
  · simp only [fmtG, h0, if_false] at hc
    split_ifs at hc
    all_goals first
      | exact fmtE_bufferChar _ hd c hc
      | exact fmtF_bufferChar _ hd c hc
      | (rcases List.mem_cons.1 hc with rfl | hc
         · exact Or.inr (Or.inr (Or.inl rfl))
         · first
           | exact fmtE_bufferChar _ hd c hc
           | exact fmtF_bufferChar _ hd c hc)


theorem utf8ByteSize_go_pos (c : Char) (cs : List Char) :
    0 < String.utf8ByteSize.go (c :: cs) := by
  have := Char.utf8Size_pos c
  simp only [String.utf8ByteSize.go]
  omega

theorem data_of_utf8ByteSize_one (s : String) (h : s.utf8ByteSize = 1) :
    ∃ c, s.data = [c] := by
  cases s with
  | mk data =>
    cases data with
    | nil => simp [String.utf8ByteSize, String.utf8ByteSize.go] at h
    | cons c cs =>
      cases cs with
      | nil => exact ⟨c, rfl⟩
      | cons d ds =>
        have h1 := utf8ByteSize_go_pos d ds
        have h2 := Char.utf8Size_pos c
        simp only [String.utf8ByteSize, String.utf8ByteSize.go] at h h1
        omega

theorem editKey_bufferChar (s : String)
    (h : s.utf8ByteSize = 1 ∧ ContainsAny s "0123456789.-" = true) :
    ∀ c ∈ s.data, bufferChar c := by
  obtain ⟨c0, hc0⟩ := data_of_utf8ByteSize_one s h.1
  have h2 := h.2
  simp only [ContainsAny, hc0, List.any_cons, List.any_nil, Bool.or_false] at h2
  have hmem : c0 ∈ "0123456789.-".data := by simpa using h2
  intro c hc
  rw [hc0, List.mem_singleton] at hc
  subst hc
  simp only [List.mem_cons, List.mem_singleton] at hmem
  rcases hmem with rfl | rfl | rfl | rfl | rfl | rfl | rfl | rfl | rfl | rfl | rfl | rfl | hn
  · exact Or.inl (by decide)
  · exact Or.inl (by decide)
  · exact Or.inl (by decide)
  · exact Or.inl (by decide)
  · exact Or.inl (by decide)
  · exact Or.inl (by decide)
  · exact Or.inl (by decide)
  · exact Or.inl (by decide)
  · exact Or.inl (by decide)
  · exact Or.inl (by decide)
  · exact Or.inr (Or.inl rfl)
  · exact Or.inr (Or.inr (Or.inl rfl))
  · simp at hn

/-- The state after committing the spot 1000000 and reopening it. -/
theorem run_million :
    run initialModel ["enter", "0", "0", "0", "0", "enter", "enter"]
      = { initialModel with S := 1000000, editing := true, input := "1e+06" } := by
  obtain ⟨-, hp, -, hf, hg⟩ := library_values
  obtain ⟨k0, -, -, -, -⟩ := edit_keys
  delta run runMsgs Update
  simp [initialModel, fieldValueAsString, hp, hf, hg, k0]

/-- C18, as stated, fails: the keys enter, 0, 0, 0, 0, enter, enter from the
initial state commit the spot 1000000 and reopen it for editing; editing is on
and the buffer is `"1e+06"`, which holds `e` and `+`. -/
theorem C18_exponent_in_buffer :
    ¬ (∀ m : model, Reachable m → m.editing = true →
        ∀ c ∈ m.input.data, c.isDigit = true ∨ c = '.' ∨ c = '-') := by
  intro h
  have hr : Reachable (run initialModel ["enter", "0", "0", "0", "0", "enter", "enter"]) :=
    ⟨_, rfl⟩
  rw [run_million] at hr
  have h1 := h _ hr rfl 'e' (by decide)
  revert h1
  decide

/-- C18, amended: in every state reachable from the initial state, whenever
editing is on the edit buffer consists only of digits, `.`, `-` and the
exponent characters `e` and `+`, which `%g` writes for a committed value whose
decimal exponent is below -4 or at least 6; the text `%g` gives for any
parameter value is made of these characters. -/
theorem C18_buffer_alphabet (m : model) (h : Reachable m) (he : m.editing = true) :
    (∀ c ∈ m.input.data, bufferChar c) ∧
    (∀ x : ℚ, ∀ c ∈ (fmtG x).data, bufferChar c) := by
  refine ⟨?_, fmtG_bufferChar⟩
  have hfield : ∀ (p : model) (idx : Int), ∀ c ∈ (fieldValueAsString p idx).data,
      bufferChar c := by
    intro p idx c hc
    delta fieldValueAsString at hc
    split_ifs at hc
    · exact fmtG_bufferChar _ c hc
    · exact fmtG_bufferChar _ c hc
    · exact fmtG_bufferChar _ c hc
    · exact fmtG_bufferChar _ c hc
    · exact fmtG_bufferChar _ c hc
    · exact fmtG_bufferChar _ c hc
    · exact absurd hc (List.not_mem_nil c)
  refine Reachable_induction
    (P := fun s => s.editing = true → ∀ c ∈ s.input.data, bufferChar c)
    (fun h => absurd h (by decide)) ?_ m h he
  intro s msg ih
  cases msg with
  | WindowSizeMsg => exact ih
  | Other => exact ih
  | KeyMsg k =>
    cases hs : s.editing with
    | false =>
      delta Update
      simp only [hs, Bool.false_eq_true, if_false]
      split_ifs <;> first
        | (intro hed; exact False.elim hed)
        | (intro hed; exact absurd (show false = true from hed) (by decide))
        | (intro hed; exact absurd (hs.symm.trans hed) (by decide))
        | (intro _; exact hfield s s.focus)
    | true =>
      have hin := ih hs
      by_cases h1 : k = "enter"
      · intro h2
        have : (Update s (Msg.KeyMsg k)).1.editing = false := by
          delta Update
          simp [hs, h1]
        rw [this] at h2
        exact absurd h2 (by decide)
      · by_cases h2 : k = "backspace"
        · subst h2
          have hU : Update s (Msg.KeyMsg "backspace")
              = (if s.input.length > 0
                  then { s with input := String.mk s.input.data.dropLast } else s, none) := by
            delta Update
            simp [hs]
          intro _ c hc
          rw [hU] at hc
          split_ifs at hc
          · exact hin c (List.mem_of_mem_dropLast hc)
          · exact hin c hc
        · by_cases h3 : k.utf8ByteSize = 1 ∧ ContainsAny k "0123456789.-" = true
          · have hU : Update s (Msg.KeyMsg k) = ({ s with input := s.input ++ k }, none) := by
              delta Update
              simp [hs, h1, h2, h3]
            intro _ c hc
            rw [hU] at hc
            have hc2 : c ∈ s.input.data ++ k.data := by simpa using hc
            rcases List.mem_append.1 hc2 with hc3 | hc3
            · exact hin c hc3
            · exact editKey_bufferChar k h3 c hc3
          · have hU : Update s (Msg.KeyMsg k) = (s, none) := by
              delta Update
              simp only [hs, if_true, h1, h2, if_false]
              rw [if_neg h3]
            intro _ c hc
            rw [hU] at hc
            exact hin c hc

/-- Witness of C18: the state that is editing the spot 1000000. -/
theorem C18_buffer_alphabet_witness :
    (run initialModel ["enter", "0", "0", "0", "0", "enter", "enter"]).input = "1e+06" ∧
    ∀ c ∈ (run initialModel ["enter", "0", "0", "0", "0", "enter", "enter"]).input.data,
      bufferChar c :=
  ⟨by rw [run_million],
    (C18_buffer_alphabet (run initialModel ["enter", "0", "0", "0", "0", "enter", "enter"])
      ⟨_, rfl⟩ (by rw [run_million])).1⟩

/-! ## Pricer -/

/-- The distribution function at a negated argument. -/
theorem NormCDF_neg (x : ℝ) : NormCDF (-x) = 1 - NormCDF x := by
  have hodd : Erf (-(x / Real.sqrt 2)) = -Erf (x / Real.sqrt 2) := by
    show 2 / Real.sqrt Real.pi * (tsum fun n : ℕ => (-1) ^ n * erfTerm (-(x / Real.sqrt 2)) n)
      = -(2 / Real.sqrt Real.pi * (tsum fun n : ℕ => (-1) ^ n * erfTerm (x / Real.sqrt 2) n))
    have ht : ∀ n : ℕ, (-1 : ℝ) ^ n * erfTerm (-(x / Real.sqrt 2)) n
        = -((-1) ^ n * erfTerm (x / Real.sqrt 2) n) := by
      intro n
      show (-1 : ℝ) ^ n * ((-(x / Real.sqrt 2)) ^ (2 * n + 1) / ((n.factorial : ℝ) * (2 * n + 1)))
        = -((-1) ^ n * ((x / Real.sqrt 2) ^ (2 * n + 1) / ((n.factorial : ℝ) * (2 * n + 1))))
      rw [Odd.neg_pow ⟨n, rfl⟩]
      ring
    rw [tsum_congr ht, tsum_neg]
    ring
  show 0.5 * (1.0 + Erf (-x / Real.sqrt 2)) = 1 - 0.5 * (1.0 + Erf (x / Real.sqrt 2))
  rw [neg_div, hodd]
  ring

set_option maxHeartbeats 1000000 in
/-- Bounds on the two prices at the default parameters. -/
theorem default_prices :
    (9.2268 : ℝ) < Calc 100 100 1 0.05 0.02 0.2 "call" ∧
    Calc 100 100 1 0.05 0.02 0.2 "call" < 9.2274 ∧
    (6.329 : ℝ) < Calc 100 100 1 0.05 0.02 0.2 "put" ∧
    Calc 100 100 1 0.05 0.02 0.2 "put" < 6.331 := by
  -- partial sums of the alternating series enclose its sum
  have hseries : ∀ y : ℝ, 0 ≤ y → y ≤ 1 →
      y - y ^ 3 / 3 + y ^ 5 / 10 - y ^ 7 / 42 ≤ (tsum fun n : ℕ => (-1) ^ n * erfTerm y n) ∧
      (tsum fun n : ℕ => (-1) ^ n * erfTerm y n) ≤ y - y ^ 3 / 3 + y ^ 5 / 10 := by
    intro y h0 h1
    have hpos : ∀ n : ℕ, (0 : ℝ) < (n.factorial : ℝ) * (2 * n + 1) := by
      intro n
      have : (0 : ℝ) < (n.factorial : ℝ) := by exact_mod_cast n.factorial_pos
      positivity
    have hanti : Antitone (erfTerm y) := by
      apply antitone_nat_of_succ_le
      intro n
      show y ^ (2 * (n + 1) + 1) / (((n + 1).factorial : ℝ) * (2 * ((n + 1 : ℕ) : ℝ) + 1))
        ≤ y ^ (2 * n + 1) / ((n.factorial : ℝ) * (2 * n + 1))
      apply div_le_div₀ (pow_nonneg h0 _)
      · exact pow_le_pow_of_le_one h0 h1 (by omega)
      · exact hpos n
      · have hf : ((n + 1).factorial : ℝ) = ((n : ℝ) + 1) * (n.factorial : ℝ) := by
          rw [Nat.factorial_succ]; push_cast; ring
        have hfp : (0 : ℝ) < (n.factorial : ℝ) := by exact_mod_cast n.factorial_pos
        have hn : (0 : ℝ) ≤ (n : ℝ) := Nat.cast_nonneg n
        rw [hf]
        push_cast
        nlinarith [mul_nonneg hn hfp.le, mul_nonneg (mul_nonneg hn hn) hfp.le]
    have hsum : Summable fun n : ℕ => (-1 : ℝ) ^ n * erfTerm y n := by
      apply Summable.of_norm_bounded _ (Real.summable_pow_div_factorial 1)
      intro n
      have hfp : (0 : ℝ) < (n.factorial : ℝ) := by exact_mod_cast n.factorial_pos
      have hn : (0 : ℝ) ≤ (n : ℝ) := Nat.cast_nonneg n
      have hy : y ^ (2 * n + 1) ≤ 1 := pow_le_one₀ h0 h1
      have hy0 : 0 ≤ y ^ (2 * n + 1) := pow_nonneg h0 _
      rw [norm_mul, norm_pow, norm_neg, norm_one, one_pow, one_mul, Real.norm_eq_abs]
      show |y ^ (2 * n + 1) / ((n.factorial : ℝ) * (2 * n + 1))| ≤ 1 / (n.factorial : ℝ)
      rw [abs_of_nonneg (div_nonneg hy0 (hpos n).le)]
      apply div_le_div₀ zero_le_one hy hfp
      nlinarith
    have hlim := hsum.hasSum.tendsto_sum_nat
    have hlo := hanti.alternating_series_le_tendsto hlim 2
    have hhi := hanti.tendsto_le_alternating_series hlim 1
    have e0 : erfTerm y 0 = y := by
      show y ^ (2 * 0 + 1) / (((Nat.factorial 0 : ℕ) : ℝ) * (2 * ((0 : ℕ) : ℝ) + 1)) = y
      norm_num [Nat.factorial]
    have e1 : erfTerm y 1 = y ^ 3 / 3 := by
      show y ^ (2 * 1 + 1) / (((Nat.factorial 1 : ℕ) : ℝ) * (2 * ((1 : ℕ) : ℝ) + 1)) = y ^ 3 / 3
      norm_num [Nat.factorial]
    have e2 : erfTerm y 2 = y ^ 5 / 10 := by
      show y ^ (2 * 2 + 1) / (((Nat.factorial 2 : ℕ) : ℝ) * (2 * ((2 : ℕ) : ℝ) + 1)) = y ^ 5 / 10
      norm_num [Nat.factorial]
    have e3 : erfTerm y 3 = y ^ 7 / 42 := by
      show y ^ (2 * 3 + 1) / (((Nat.factorial 3 : ℕ) : ℝ) * (2 * ((3 : ℕ) : ℝ) + 1)) = y ^ 7 / 42
      norm_num [Nat.factorial]
    simp only [Finset.sum_range_succ, Finset.sum_range_zero, e0, e1, e2, e3] at hlo hhi
    norm_num at hlo hhi
    constructor
    · linarith
    · linarith
  -- the distribution function on `[0, 1]`
  have hcdf : ∀ x : ℝ, 0 ≤ x → x ≤ 1 →
      0.5 + 0.5 * x * (Real.sqrt 2 / Real.sqrt Real.pi)
          * (1 - x ^ 2 / 6 + x ^ 4 / 40 - x ^ 6 / 336) ≤ NormCDF x ∧
      NormCDF x ≤ 0.5 + 0.5 * x * (Real.sqrt 2 / Real.sqrt Real.pi)
          * (1 - x ^ 2 / 6 + x ^ 4 / 40) := by
    intro x h0 h1
    have hs2 : (0 : ℝ) < Real.sqrt 2 := Real.sqrt_pos.mpr (by norm_num)
    have hsp : (0 : ℝ) < Real.sqrt Real.pi := Real.sqrt_pos.mpr Real.pi_pos
    have hsq : Real.sqrt 2 * Real.sqrt 2 = 2 := Real.mul_self_sqrt (by norm_num)
    have hy0 : 0 ≤ x / Real.sqrt 2 := div_nonneg h0 hs2.le
    have hy1 : x / Real.sqrt 2 ≤ 1 := by
      rw [div_le_one hs2]
      have : (1 : ℝ) ≤ Real.sqrt 2 := by nlinarith
      linarith
    obtain ⟨hlo, hhi⟩ := hseries (x / Real.sqrt 2) hy0 hy1
    have hN : NormCDF x = 0.5 * (1.0 + 2 / Real.sqrt Real.pi
        * (tsum fun n : ℕ => (-1) ^ n * erfTerm (x / Real.sqrt 2) n)) := rfl
    rw [hN]
    generalize (tsum fun n : ℕ => (-1) ^ n * erfTerm (x / Real.sqrt 2) n) = E at hlo hhi
    generalize hy : x / Real.sqrt 2 = y at hlo hhi hy0 hy1
    have hx : x = y * Real.sqrt 2 := by
      rw [← hy]; field_simp
    have hy2 : y ^ 2 = x ^ 2 / 2 := by
      rw [hx]; ring_nf; rw [show Real.sqrt 2 ^ 2 = 2 from by rw [sq]; exact hsq]; ring
    have hc : 2 / Real.sqrt Real.pi * y = x * (Real.sqrt 2 / Real.sqrt Real.pi) := by
      rw [hx]; field_simp; rw [mul_assoc, hsq]; ring
    have hpos : 0 < 2 / Real.sqrt Real.pi := by positivity
    have e3 : y ^ 3 = y * (x ^ 2 / 2) := by rw [← hy2]; ring
    have e5 : y ^ 5 = y * (x ^ 2 / 2) ^ 2 := by rw [← hy2]; ring
    have e7 : y ^ 7 = y * (x ^ 2 / 2) ^ 3 := by rw [← hy2]; ring
    constructor
    · have h := mul_le_mul_of_nonneg_left hlo hpos.le
      have e : 2 / Real.sqrt Real.pi * (y - y ^ 3 / 3 + y ^ 5 / 10 - y ^ 7 / 42)
          = x * (Real.sqrt 2 / Real.sqrt Real.pi)
            * (1 - x ^ 2 / 6 + x ^ 4 / 40 - x ^ 6 / 336) := by
        rw [← hc, e3, e5, e7]; ring
      rw [e] at h
      linarith
    · have h := mul_le_mul_of_nonneg_left hhi hpos.le
      have e : 2 / Real.sqrt Real.pi * (y - y ^ 3 / 3 + y ^ 5 / 10)
          = x * (Real.sqrt 2 / Real.sqrt Real.pi) * (1 - x ^ 2 / 6 + x ^ 4 / 40) := by
        rw [← hc, e3, e5]; ring
      rw [e] at h
      linarith
  -- the constant `√2/√π`
  have hconst : (0.797884 : ℝ) < Real.sqrt 2 / Real.sqrt Real.pi ∧
      Real.sqrt 2 / Real.sqrt Real.pi < 0.797885 := by
    have hpi0 : (0 : ℝ) < Real.pi := Real.pi_pos
    have hlo := Real.pi_gt_d6
    have hhi := Real.pi_lt_d6
    rw [← Real.sqrt_div (by norm_num : (0 : ℝ) ≤ 2)]
    constructor
    · rw [Real.lt_sqrt (by norm_num)]
      rw [lt_div_iff₀ hpi0]
      nlinarith
    · rw [Real.sqrt_lt' (by norm_num)]
      rw [div_lt_iff₀ hpi0]
      nlinarith
  -- the discount factors
  obtain ⟨e1lo, e1hi⟩ : (0.980198 : ℝ) < Real.exp (-(1 / 50)) ∧
      Real.exp (-(1 / 50)) < 0.980199 := by
    have hx : |(-(1 / 50) : ℝ)| ≤ 1 := by rw [abs_le]; constructor <;> norm_num
    have h := Real.exp_bound hx (show 0 < 5 by norm_num)
    simp only [Finset.sum_range_succ, Finset.sum_range_zero, Nat.factorial] at h
    rw [abs_neg, abs_of_pos (by norm_num : (0 : ℝ) < 1 / 50)] at h
    norm_num at h
    rw [abs_le] at h
    constructor <;> linarith [h.1, h.2]
  obtain ⟨e2lo, e2hi⟩ : (0.951229 : ℝ) < Real.exp (-(1 / 20)) ∧
      Real.exp (-(1 / 20)) < 0.951230 := by
    have hx : |(-(1 / 20) : ℝ)| ≤ 1 := by rw [abs_le]; constructor <;> norm_num
    have h := Real.exp_bound hx (show 0 < 5 by norm_num)
    simp only [Finset.sum_range_succ, Finset.sum_range_zero, Nat.factorial] at h
    rw [abs_neg, abs_of_pos (by norm_num : (0 : ℝ) < 1 / 20)] at h
    norm_num at h
    rw [abs_le] at h
    constructor <;> linarith [h.1, h.2]
  obtain ⟨clo, chi⟩ := hconst
  obtain ⟨n1lo, n1hi⟩ : (0.598706 : ℝ) < NormCDF (1 / 4) ∧ NormCDF (1 / 4) < 0.598707 := by
    obtain ⟨hlo, hhi⟩ := hcdf (1 / 4) (by norm_num) (by norm_num)
    constructor
    · nlinarith
    · nlinarith
  obtain ⟨n2lo, n2hi⟩ : (0.519938 : ℝ) < NormCDF (1 / 20) ∧ NormCDF (1 / 20) < 0.519939 := by
    obtain ⟨hlo, hhi⟩ := hcdf (1 / 20) (by norm_num) (by norm_num)
    constructor
    · nlinarith
    · nlinarith
  have hcall : Calc 100 100 1 0.05 0.02 0.2 "call"
      = 100 * Real.exp (-(1 / 50)) * NormCDF (1 / 4)
        - 100 * Real.exp (-(1 / 20)) * NormCDF (1 / 20) := by
    delta Calc
    simp only [if_true]
    norm_num
  have hput : Calc 100 100 1 0.05 0.02 0.2 "put"
      = 100 * Real.exp (-(1 / 20)) * (1 - NormCDF (1 / 20))
        - 100 * Real.exp (-(1 / 50)) * (1 - NormCDF (1 / 4)) := by
    have hne : ¬ ("put" = "call") := by decide
    delta Calc
    simp only [hne, if_false, NormCDF_neg]
    norm_num
  have a1 := mul_lt_mul'' e1lo n1lo (by norm_num) (by norm_num)
  have a2 := mul_lt_mul'' e1hi n1hi (Real.exp_pos _).le (by linarith)
  have a3 := mul_lt_mul'' e2lo n2lo (by norm_num) (by norm_num)
  have a4 := mul_lt_mul'' e2hi n2hi (Real.exp_pos _).le (by linarith)
  norm_num at a1 a2 a3 a4
  rw [hcall, hput]
  refine ⟨?_, ?_, ?_, ?_⟩ <;> nlinarith

/-- C7, as stated, fails: at S=100, K=100, T=1, r=0.05, q=0.02, v=0.2 it is
not the case that the call lies in [9.225, 9.235) and the put in
[7.315, 7.325); the put is below 6.34. -/
theorem C7_put_not_7_32 :
    ¬ ((9.225 : ℝ) ≤ Calc 100 100 1 0.05 0.02 0.2 "call" ∧
       Calc 100 100 1 0.05 0.02 0.2 "call" < 9.235 ∧
       (7.315 : ℝ) ≤ Calc 100 100 1 0.05 0.02 0.2 "put" ∧
       Calc 100 100 1 0.05 0.02 0.2 "put" < 7.325) := by
  rintro ⟨-, -, h, -⟩
  have hp := default_prices.2.2.2
  linarith

/-- C7, amended: at S=100, K=100, T=1, r=0.05, q=0.02, v=0.2 the call price
lies in [9.225, 9.235), so it rounds to 9.23, and the put price lies in
[6.325, 6.335), so it rounds to 6.33. -/
theorem C7_golden_prices :
    (9.225 : ℝ) ≤ Calc 100 100 1 0.05 0.02 0.2 "call" ∧
    Calc 100 100 1 0.05 0.02 0.2 "call" < 9.235 ∧
    (6.325 : ℝ) ≤ Calc 100 100 1 0.05 0.02 0.2 "put" ∧
    Calc 100 100 1 0.05 0.02 0.2 "put" < 6.335 := by
  obtain ⟨h1, h2, h3, h4⟩ := default_prices
  refine ⟨?_, ?_, ?_, ?_⟩ <;> linarith

/-! ## Heatmap renderer -/

/-- The cell `colorizeBlock` emits, on a proper scale and on a degenerate
one. -/
theorem colorizeBlock_cases (val minV maxV : ℝ) :
    (minV < maxV → colorizeBlock val minV maxV
      = ansiBlock ⌊255 * specT val minV maxV⌋ ⌊255 * (1 - specT val minV maxV)⌋ 0) ∧
    (¬ minV < maxV → colorizeBlock val minV maxV = ansiBlock 0 255 0) := by
  have htr : ∀ x : ℝ, 0 ≤ x → truncInt x = ⌊x⌋ := fun x hx => if_pos hx
  constructor
  · intro h
    have ht : blockT val minV maxV = specT val minV maxV := by
      show (if maxV > minV then
          (if (if (val - minV) / (maxV - minV) < 0 then 0 else (val - minV) / (maxV - minV)) > 1
            then 1
            else (if (val - minV) / (maxV - minV) < 0 then 0 else (val - minV) / (maxV - minV)))
          else 0) = max 0 (min ((val - minV) / (maxV - minV)) 1)
      rw [if_pos h]
      by_cases h0 : (val - minV) / (maxV - minV) < 0
      · have h1 : ¬ ((0 : ℝ) > 1) := by norm_num
        rw [if_pos h0, if_neg h1, min_eq_left (by linarith), max_eq_left h0.le]
      · rw [if_neg h0]
        push_neg at h0
        by_cases h1 : (val - minV) / (maxV - minV) > 1
        · rw [if_pos h1, min_eq_right h1.le, max_eq_right (by norm_num)]
        · rw [if_neg h1]
          push_neg at h1
          rw [min_eq_left h1, max_eq_right h0]
    have h0 : 0 ≤ specT val minV maxV := le_max_left _ _
    have h1 : specT val minV maxV ≤ 1 := max_le (by norm_num) (min_le_right _ _)
    show ansiBlock (truncInt (255 * blockT val minV maxV))
      (truncInt (255 * (1 - blockT val minV maxV))) 0 = _
    rw [ht, htr _ (by positivity), htr _ (by nlinarith)]
  · intro h
    have ht : blockT val minV maxV = 0 := if_neg h
    show ansiBlock (truncInt (255 * blockT val minV maxV))
      (truncInt (255 * (1 - blockT val minV maxV))) 0 = _
    rw [ht, htr _ (by norm_num), htr _ (by norm_num)]
    norm_num

/-- C11, as stated, fails: the matrix `[[], [1]]` has two rows and
`renderColoredHeatmap` returns no line for it. -/
theorem C11_first_row_empty_no_lines :
    (renderColoredHeatmap [[], [1]]).length ≠ ([[], [1]] : List (List ℝ)).length := by
  show ([] : List String).length ≠ ([[], [1]] : List (List ℝ)).length
  decide

/-- C11, amended: for every matrix whose first row is not empty (later rows
may be empty or of other lengths) `renderColoredHeatmap` returns as many lines
as the matrix has rows, and line `i` is the concatenation, with no separator,
of one coloured cell per column of row `i`; a cell is the colour escape, two
blanks and the reset.  The empty matrix, and every matrix whose first row is
empty, yields no lines. -/
theorem C11_lines_and_cells (x0 : ℝ) (row0 : List ℝ) (rest : List (List ℝ)) :
    (renderColoredHeatmap ((x0 :: row0) :: rest)).length = ((x0 :: row0) :: rest).length ∧
    (∃ r g : ℝ → Int, renderColoredHeatmap ((x0 :: row0) :: rest)
        = ((x0 :: row0) :: rest).map fun row =>
            String.join (row.map fun x => ansiBlock (r x) (g x) 0)) ∧
    (∀ r g b : Int, ansiBlock r g b
        = "\x1b[48;2;" ++ fmtD r ++ ";" ++ fmtD g ++ ";" ++ fmtD b ++ "m" ++ "  " ++ "\x1b[0m") ∧
    renderColoredHeatmap [] = [] ∧
    renderColoredHeatmap ([] :: rest) = [] := by
  refine ⟨?_, ?_, ?_, rfl, rfl⟩
  · show (((x0 :: row0) :: rest).map fun row => String.join (row.map fun x =>
        colorizeBlock x (minMax ((x0 :: row0) :: rest) x0).1
          (minMax ((x0 :: row0) :: rest) x0).2)).length = _
    rw [List.length_map]
  · exact ⟨fun x => truncInt (255 * blockT x (minMax ((x0 :: row0) :: rest) x0).1
        (minMax ((x0 :: row0) :: rest) x0).2),
      fun x => truncInt (255 * (1 - blockT x (minMax ((x0 :: row0) :: rest) x0).1
        (minMax ((x0 :: row0) :: rest) x0).2)), rfl⟩
  · intro r g b
    show "\x1b[48;2;" ++ fmtD r ++ ";" ++ fmtD g ++ ";" ++ fmtD b ++ "m  \x1b[0m" = _
    simp only [String.append_assoc]
    rfl

/-- C13: for every non-empty matrix whose cells all equal one value `c`, every
cell `renderColoredHeatmap` emits is the same colour, red 0, green 255,
blue 0: every line is a run of such cells, and when the first row is not empty
there is one line per row with one such cell per column. -/
theorem C13_constant_matrix_green (data : List (List ℝ)) (c : ℝ) (hne : data ≠ [])
    (hall : ∀ row ∈ data, ∀ x ∈ row, x = c) :
    (∀ line ∈ renderColoredHeatmap data,
      ∃ k : Nat, line = String.join (List.replicate k (ansiBlock 0 255 0))) ∧
    (data.head?.bind List.head? ≠ none →
      renderColoredHeatmap data
        = data.map fun row => String.join (List.replicate row.length (ansiBlock 0 255 0))) := by
  have hrow : ∀ row : List ℝ, (∀ x ∈ row, x = c) → row.foldl minMaxStep (c, c) = (c, c) := by
    intro row
    induction row with
    | nil => intro _; rfl
    | cons x xs ih =>
      intro h
      have hx : x = c := h x (List.mem_cons_self _ _)
      subst hx
      have hstep : minMaxStep (x, x) x = (x, x) := by
        show ((if x < x then x else x), (if x > x then x else x)) = (x, x)
        rw [if_neg (lt_irrefl x)]
      rw [List.foldl_cons, hstep]
      exact ih (fun y hy => h y (List.mem_cons_of_mem _ hy))
  have hmm : ∀ rows : List (List ℝ), (∀ row ∈ rows, ∀ x ∈ row, x = c) →
      minMax rows c = (c, c) := by
    intro rows
    show (∀ row ∈ rows, ∀ x ∈ row, x = c) →
      rows.foldl (fun acc row => row.foldl minMaxStep acc) (c, c) = (c, c)
    induction rows with
    | nil => intro _; rfl
    | cons row rows ih =>
      intro h
      rw [List.foldl_cons, hrow row (h row (List.mem_cons_self _ _))]
      exact ih (fun r hr => h r (List.mem_cons_of_mem _ hr))
  cases data with
  | nil => exact absurd rfl hne
  | cons row0 rest =>
    cases row0 with
    | nil =>
      constructor
      · intro line hl
        exact absurd hl (List.not_mem_nil line)
      · intro hh
        exact absurd rfl hh
    | cons x0 xs =>
      have hx : x0 = c := hall _ (List.mem_cons_self _ _) x0 (List.mem_cons_self _ _)
      subst hx
      have hr : renderColoredHeatmap ((x0 :: xs) :: rest)
          = ((x0 :: xs) :: rest).map fun row =>
              String.join (List.replicate row.length (ansiBlock 0 255 0)) := by
        show (((x0 :: xs) :: rest).map fun row => String.join (row.map fun x =>
          colorizeBlock x (minMax ((x0 :: xs) :: rest) x0).1
            (minMax ((x0 :: xs) :: rest) x0).2)) = _
        rw [hmm _ hall]
        apply List.map_congr_left
        intro row _
        congr 1
        rw [List.eq_replicate_iff]
        refine ⟨List.length_map _ _, ?_⟩
        intro s hs
        obtain ⟨x, -, rfl⟩ := List.mem_map.1 hs
        exact (colorizeBlock_cases x x0 x0).2 (lt_irrefl x0)
      constructor
      · intro line hl
        rw [hr] at hl
        obtain ⟨row, -, rfl⟩ := List.mem_map.1 hl
        exact ⟨row.length, rfl⟩
      · intro _
        exact hr

/-- Witness of C13: a ragged matrix of threes. -/
theorem C13_constant_matrix_green_witness :
    renderColoredHeatmap [[3, 3], [3]]
      = [String.join [ansiBlock 0 255 0, ansiBlock 0 255 0], String.join [ansiBlock 0 255 0]] := by
  have h := (C13_constant_matrix_green [[3, 3], [3]] 3 (by simp) (by simp)).2 (by simp)
  simpa using h

/-! ## Positivity of the grid samples -/

end OptionPricer
